import Mathlib

/-!
# Verification of the workflowyCLI mirroring and lookup core

Shallow embedding of the tree mirror / sync engine (`src/state/sync.ts`),
the node lookup layer (`NodeService`), and the path resolver
(`src/state/PathResolver.ts`, `src/state/session.ts`), together with
theorems settling the specification claims about them.

JavaScript arrays are modelled as Lean lists, `undefined` optional fields as
`Option`, exceptions as `Except String`, and `Date.now()` / network results as
explicit parameters.  A node's `ch` field (`WorkflowyNode[] | undefined`) is
modelled as a plain list: every code path covered here treats an `undefined`
children field and an empty array identically (`node.ch && node.ch.length > 0`
guards in search, vacuous recursion in find).
-/

/-- Model of `WorkflowyNode` from `src/api/client.ts`: `{ id, name, note?, k?, ch? }`.
`k` is the backend order (priority) field. -/
inductive WNode : Type where
  | mk (id : String) (name : String) (note : Option String) (k : Option Int)
      (ch : List WNode) : WNode

def WNode.id : WNode → String
  | .mk i _ _ _ _ => i

def WNode.name : WNode → String
  | .mk _ n _ _ _ => n

def WNode.note : WNode → Option String
  | .mk _ _ t _ _ => t

def WNode.k : WNode → Option Int
  | .mk _ _ _ v _ => v

def WNode.ch : WNode → List WNode
  | .mk _ _ _ _ c => c

/-- Replace the `ch` field of a node (models the mutation `node.ch = ...`). -/
def WNode.withCh : WNode → List WNode → WNode
  | .mk i n t v _, c => .mk i n t v c

/-- Model of `PathSegment` from `src/state/sync.ts`: `{ id, name }`. -/
structure PathSegment where
  id : String
  name : String
  deriving DecidableEq, Repr

/-- Model of `SearchOptions` from `src/state/sync.ts`.  `limit` is `number | undefined`;
the code tests it for JS truthiness, so `some 0` behaves like `none`. -/
structure SearchOptions where
  includeNotes : Bool := false
  limit : Option Nat := none
  isRegex : Bool := false

/-- The `matchField` discriminator of a `SearchResult`. -/
inductive MatchField : Type where
  | name
  | note
  deriving DecidableEq, Repr

/-- Model of `SearchResult` from `src/state/sync.ts`. -/
structure SearchResult where
  node : WNode
  path : List PathSegment
  matchField : MatchField
  matchContent : String

/-- Evaluation of `a.k || 0`: the order key used by sorting, `0` when `k` is undefined. -/
def kOrZero (n : WNode) : Int := n.k.getD 0

/-- JS `String.prototype.toLowerCase`, modelled characterwise (the strings in
scope are ASCII). -/
def lowerCase (s : String) : String := String.mk (s.data.map Char.toLower)

/-- JS `String.prototype.includes`: substring test. -/
def strIncludes (hay needle : String) : Bool :=
  decide (needle.toList <:+: hay.toList)

/-- The guard `options.limit && results.length >= options.limit` from
`searchRecursive` (lines 402 and 409 of `sync.ts`): JS truthiness of `limit`
followed by the length comparison. -/
def limitReached (o : SearchOptions) (len : Nat) : Bool :=
  match o.limit with
  | none => false
  | some l => decide (0 < l) && decide (l ≤ len)

/-- Abstract model of the host regular-expression engine.  `compile q` is
`none` when `new RegExp(q, 'i')` throws a `SyntaxError`, and otherwise
`some t` where `t s` is the case-insensitive match `regex.test(s)`. -/
structure RegexProvider where
  compile : String → Option (String → Bool)

/-- Computation of `nameMatch` for one node (`sync.ts` lines 386–390): regex test of
`node.name || ''`, or lowercase substring containment of the (already
lowercased) query. -/
def nodeNameMatch (t? : Option (String → Bool)) (query : String) (n : WNode) : Bool :=
  match t? with
  | some t => t n.name
  | none => strIncludes (lowerCase n.name) query

/-- Computation of `noteMatch` for one node (`sync.ts` lines 388 and 391):
`!!options.includeNotes &&` the test applied to `node.note || ''`. -/
def nodeNoteMatch (t? : Option (String → Bool)) (query : String) (o : SearchOptions)
    (n : WNode) : Bool :=
  o.includeNotes &&
    (match t? with
     | some t => t (n.note.getD "")
     | none => strIncludes (lowerCase (n.note.getD "")) query)

/-- Test `nameMatch || noteMatch`: whether a node produces a `SearchResult`. -/
def nodeMatches (t? : Option (String → Bool)) (query : String) (o : SearchOptions)
    (n : WNode) : Bool :=
  nodeNameMatch t? query n || nodeNoteMatch t? query o n

/-- The `SearchResult` pushed for a matching node (`sync.ts` lines 395–400). -/
def mkResult (t? : Option (String → Bool)) (query : String) (n : WNode)
    (path : List PathSegment) : SearchResult :=
  { node := n
    path := path
    matchField := if nodeNameMatch t? query n then .name else .note
    matchContent := if nodeNameMatch t? query n then n.name else n.note.getD "" }

/-- The loop body of `TreeSyncService.searchRecursive` (`sync.ts` lines
382–411) after the regular expression has been compiled: visits `nodes` in
order, pushes a result for each match, returns early once the limit is
reached (checked after each push and after each recursion into a non-empty
children list), and otherwise recurses depth-first. -/
def searchGo (t? : Option (String → Bool)) (query : String) (o : SearchOptions) :
    List WNode → List PathSegment → List SearchResult → List SearchResult
  | [], _, results => results
  | (WNode.mk i nm nt kv ch) :: rest, path, results =>
    let n := WNode.mk i nm nt kv ch
    let results1 :=
      if nodeMatches t? query o n then results ++ [mkResult t? query n path]
      else results
    if nodeMatches t? query o n && limitReached o results1.length then
      results1
    else
      let results2 :=
        if ch.isEmpty then results1
        else searchGo t? query o ch (path ++ [⟨i, nm⟩]) results1
      if !ch.isEmpty && limitReached o results2.length then
        results2
      else
        searchGo t? query o rest path results2

/-- The compilation step at the top of `searchRecursive` (`sync.ts` lines
373–380): in regex mode `new RegExp(query, 'i')`, throwing
`Invalid regular expression: <query>` when compilation fails. -/
def compileStep (rp : RegexProvider) (o : SearchOptions) (query : String) :
    Except String (Option (String → Bool)) :=
  if o.isRegex then
    match rp.compile query with
    | some t => .ok (some t)
    | none => .error ("Invalid regular expression: " ++ query)
  else
    .ok none

/-- Embedding of `TreeSyncService.searchRecursive` (`sync.ts` lines 366–412).  The source
recompiles the same pattern at every recursive call; compilation is
deterministic, so it is hoisted here and the recursion proper is `searchGo`. -/
def searchRecursive (rp : RegexProvider) (nodes : List WNode) (query : String)
    (path : List PathSegment) (results : List SearchResult) (o : SearchOptions) :
    Except String (List SearchResult) :=
  match compileStep rp o query with
  | .error e => .error e
  | .ok t? => .ok (searchGo t? query o nodes path results)

/-- Embedding of `TreeSyncService.findRecursive` (`sync.ts` lines 422–438): depth-first
search for a node id, accumulating the breadcrumb path of its ancestors. -/
def findRecursive : List WNode → String → List PathSegment →
    Option (WNode × List PathSegment)
  | [], _, _ => none
  | (WNode.mk i nm nt kv ch) :: rest, targetId, path =>
    if i == targetId then some (WNode.mk i nm nt kv ch, path)
    else
      match findRecursive ch targetId (path ++ [⟨i, nm⟩]) with
      | some r => some r
      | none => findRecursive rest targetId path

/-- The start-node selection of `TreeSyncService.search` (`sync.ts` lines
346–359): the whole mirror for the root id, otherwise the found node as a
singleton together with its breadcrumb path; `none` when the requested start
node is absent from the mirror. -/
def searchStart (tree : List WNode) (startNodeId : String) :
    Option (List WNode × List PathSegment) :=
  if startNodeId == "None" then some (tree, [])
  else
    match findRecursive tree startNodeId [] with
    | some (n, p) => some ([n], p)
    | none => none

/-- Embedding of `TreeSyncService.search` (`sync.ts` lines 340–364).  `mirror` is
`this.inMemoryTree`; the query is lowercased before being handed to
`searchRecursive`. -/
def search (rp : RegexProvider) (mirror : Option (List WNode)) (query : String)
    (o : SearchOptions) (startNodeId : String) : Except String (List SearchResult) :=
  match mirror with
  | none => .ok []
  | some tree =>
    match searchStart tree startNodeId with
    | none => .ok []
    | some (startNodes, initialPath) =>
      searchRecursive rp startNodes (lowerCase query) initialPath [] o

/-- Specification-side collector (from the spec's words): all matches of the
subtree in depth-first pre-order, with the breadcrumb path recorded per
result, and no limit.  `searchGo` is compared against it. -/
def searchAll (t? : Option (String → Bool)) (query : String) (o : SearchOptions) :
    List WNode → List PathSegment → List SearchResult
  | [], _ => []
  | (WNode.mk i nm nt kv ch) :: rest, path =>
    let n := WNode.mk i nm nt kv ch
    (if nodeMatches t? query o n then [mkResult t? query n path] else []) ++
      searchAll t? query o ch (path ++ [⟨i, nm⟩]) ++
      searchAll t? query o rest path

theorem limitReached_none (o : SearchOptions) (h : o.limit = none) (len : Nat) :
    limitReached o len = false := by
  simp [limitReached, h]

theorem limitReached_some (o : SearchOptions) (N : Nat) (h : o.limit = some N)
    (hN : 0 < N) (len : Nat) : limitReached o len = decide (N ≤ len) := by
  simp [limitReached, h, hN]

theorem limitReached_zero (o : SearchOptions) (h : o.limit = some 0) (len : Nat) :
    limitReached o len = false := by
  simp [limitReached, h]

/-- With no limit in force, `searchGo` appends exactly the pre-order match list
to the accumulated results. -/
theorem searchGo_no_limit (t? : Option (String → Bool)) (q : String)
    (o : SearchOptions) (h : ∀ len, limitReached o len = false) :
    ∀ nodes path acc,
      searchGo t? q o nodes path acc = acc ++ searchAll t? q o nodes path := by
  intro nodes path
  induction nodes, path using searchAll.induct t? q o with
  | case1 path =>
    intro acc
    simp [searchGo, searchAll]
  | case2 i nm nt kv ch rest path ih1 ih2 =>
    intro acc
    simp only [searchGo, searchAll, h, Bool.and_false, if_false]
    by_cases hch : ch = []
    · subst hch
      by_cases hm : nodeMatches t? q o (WNode.mk i nm nt kv []) = true
      · simp [hm, ih2, searchAll, List.append_assoc]
      · simp [hm, ih2, searchAll]
    · have hch2 : ch.isEmpty = false := by
        cases ch with
        | nil => exact absurd rfl hch
        | cons a l => rfl
      by_cases hm : nodeMatches t? q o (WNode.mk i nm nt kv ch) = true
      · simp [hm, hch2, ih1, ih2, List.append_assoc]
      · simp [hm, hch2, ih1, ih2, List.append_assoc]


theorem searchGo_limited (t? : Option (String → Bool)) (q : String)
    (o : SearchOptions) (N : Nat) (h : o.limit = some N) (hN : 0 < N) :
    ∀ nodes path acc, acc.length < N →
      searchGo t? q o nodes path acc =
        acc ++ (searchAll t? q o nodes path).take (N - acc.length) := by
  intro nodes path
  induction nodes, path using searchAll.induct t? q o with
  | case1 path =>
    intro acc hacc
    simp [searchGo, searchAll]
  | case2 i nm nt kv ch rest path ih1 ih2 =>
    intro acc hacc
    simp only [searchGo, searchAll, limitReached_some o N h hN]
    by_cases hm : nodeMatches t? q o (WNode.mk i nm nt kv ch) = true
    · simp only [hm, if_true, Bool.true_and]
      by_cases hfull : N ≤ acc.length + 1
      · rw [if_pos (by simp only [List.length_append, List.length_singleton, List.length_cons, List.length_nil,
          decide_eq_true_eq]; omega)]
        have h1 : N - acc.length = 1 := by omega
        simp [h1]
      · rw [if_neg (by simp only [List.length_append, List.length_singleton, List.length_cons, List.length_nil,
          decide_eq_true_eq]; omega)]
        by_cases hch : ch = []
        · subst hch
          simp only [List.isEmpty_nil, if_true, Bool.not_true, Bool.false_and,
            Bool.false_eq_true, if_false]
          rw [ih2 (acc ++ [mkResult t? q (WNode.mk i nm nt kv []) path])
            (by simp only [List.length_append, List.length_singleton, List.length_cons, List.length_nil]; omega)]
          have h2 : N - acc.length = (N - (acc.length + 1)) + 1 := by omega
          simp [searchAll, h2, List.length_append]
        · have hch2 : ch.isEmpty = false := by
            cases ch with
            | nil => exact absurd rfl hch
            | cons a l => rfl
          simp only [hch2, Bool.false_eq_true, if_false, Bool.not_false,
            Bool.true_and]
          rw [ih1 (acc ++ [mkResult t? q (WNode.mk i nm nt kv ch) path])
            (by simp only [List.length_append, List.length_singleton, List.length_cons, List.length_nil]; omega)]
          by_cases hlim : N ≤ acc.length + 1 +
              min (N - (acc.length + 1))
                (searchAll t? q o ch (path ++ [⟨i, nm⟩])).length
          · rw [if_pos (by simp only [List.length_append, List.length_singleton, List.length_cons, List.length_nil,
              List.length_take, decide_eq_true_eq]; omega)]
            have hle : N - (acc.length + 1) ≤
                (searchAll t? q o ch (path ++ [⟨i, nm⟩])).length := by omega
            have h2 : N - acc.length = (N - (acc.length + 1)) + 1 := by omega
            rw [List.take_append_eq_append_take, List.take_append_eq_append_take]
            simp [h2, List.take_append_eq_append_take, List.length_take,
              Nat.sub_eq_zero_of_le hle, Nat.sub_eq_zero_of_le,
              List.take_of_length_le, hle, min_eq_left hle]
          · rw [if_neg (by simp only [List.length_append, List.length_singleton, List.length_cons, List.length_nil,
              List.length_take, decide_eq_true_eq]; omega)]
            have hgt : (searchAll t? q o ch (path ++ [⟨i, nm⟩])).length <
                N - (acc.length + 1) := by omega
            rw [ih2 _ (by simp only [List.length_append, List.length_singleton, List.length_cons, List.length_nil,
              List.length_take]; omega)]
            have h2 : N - acc.length = (N - (acc.length + 1)) + 1 := by omega
            rw [List.take_of_length_le (by
              simp only [List.length_append, List.length_singleton,
                List.length_cons, List.length_nil]
              omega)]
            simp only [List.length_append, List.length_singleton, List.length_cons, List.length_nil]
            have h3 : N - (acc.length + 1 +
                (searchAll t? q o ch (path ++ [⟨i, nm⟩])).length) =
                N - (acc.length + 1) -
                (searchAll t? q o ch (path ++ [⟨i, nm⟩])).length := by omega
            rw [h3]
            simp [h2, List.take_append_eq_append_take,
              List.take_of_length_le (le_of_lt hgt), List.append_assoc]
    · simp only [hm, Bool.false_eq_true, if_false, Bool.false_and]
      by_cases hch : ch = []
      · subst hch
        simp only [List.isEmpty_nil, if_true, Bool.not_true, Bool.false_and,
          Bool.false_eq_true, if_false]
        rw [ih2 acc hacc]
        simp [searchAll]
      · have hch2 : ch.isEmpty = false := by
          cases ch with
          | nil => exact absurd rfl hch
          | cons a l => rfl
        simp only [hch2, Bool.false_eq_true, if_false, Bool.not_false,
          Bool.true_and]
        rw [ih1 acc hacc]
        by_cases hlim : N ≤ acc.length +
            min (N - acc.length)
              (searchAll t? q o ch (path ++ [⟨i, nm⟩])).length
        · rw [if_pos (by simp only [List.length_append, List.length_take,
            decide_eq_true_eq]; omega)]
          have hle : N - acc.length ≤
              (searchAll t? q o ch (path ++ [⟨i, nm⟩])).length := by omega
          rw [List.take_append_eq_append_take, List.take_append_eq_append_take]
          simp [List.length_take, Nat.sub_eq_zero_of_le hle,
            min_eq_left hle]
        · rw [if_neg (by simp only [List.length_append, List.length_take,
            decide_eq_true_eq]; omega)]
          have hgt : (searchAll t? q o ch (path ++ [⟨i, nm⟩])).length <
              N - acc.length := by omega
          rw [ih2 _ (by simp only [List.length_append, List.length_take]; omega)]
          simp only [List.length_append, List.length_take]
          have h3 : N - (acc.length +
              min (N - acc.length) (searchAll t? q o ch (path ++ [⟨i, nm⟩])).length) =
              N - acc.length -
              (searchAll t? q o ch (path ++ [⟨i, nm⟩])).length := by omega
          rw [h3]
          simp [List.take_append_eq_append_take,
            List.take_of_length_le (le_of_lt hgt), List.append_assoc]

/-- Prefixing the initial breadcrumb path shifts every recorded result path. -/
theorem searchAll_shift (t? : Option (String → Bool)) (q : String)
    (o : SearchOptions) :
    ∀ nodes path base, searchAll t? q o nodes (base ++ path) =
      (searchAll t? q o nodes path).map
        (fun r => ⟨r.node, base ++ r.path, r.matchField, r.matchContent⟩) := by
  intro nodes path
  induction nodes, path using searchAll.induct t? q o with
  | case1 path =>
    intro base
    simp [searchAll]
  | case2 i nm nt kv ch rest path ih1 ih2 =>
    intro base
    simp only [searchAll, List.append_assoc]
    rw [ih1 base, ih2 base]
    by_cases hm : nodeMatches t? q o (WNode.mk i nm nt kv ch) = true
    · simp [hm, mkResult]
    · simp [hm]

/-! ### Concrete fixtures used by witnesses and counterexamples -/

/-- A regex provider on which every pattern fails to compile; stands in for
the host engine on patterns such as `[` that are invalid JS regexes.  In
non-regex searches the provider is never consulted. -/
def rpNone : RegexProvider := ⟨fun _ => none⟩

/-- Three-node flat mirror in which every node name contains `apple`. -/
def treeApples : List WNode :=
  [.mk "1" "apple pie" none none [],
   .mk "2" "crabapple" none none [],
   .mk "3" "APPLE" none none []]

/-- Mirror `A → S → C` used for the breadcrumb counterexample: the match `C`
sits below the search start node `S`, which itself sits below `A`. -/
def treeASC : List WNode :=
  [.mk "a" "A" none none [.mk "s" "S" none none [.mk "c" "target" none none []]]]

/-- C5: with `limit = N` (positive) and more than `N` matches in the searched
subtree, `search` returns exactly the first `N` pre-order matches.  The
theorem covers both substring and regex mode through the compiled test `t?`;
`startNodes`/`initialPath` are the subtree and breadcrumbs `search` selects
for `startId`. -/
theorem search_limit_first_preorder (rp : RegexProvider) (tree : List WNode)
    (query : String) (o : SearchOptions) (N : Nat) (startId : String)
    (startNodes : List WNode) (initialPath : List PathSegment)
    (t? : Option (String → Bool))
    (hlim : o.limit = some N) (hN : 0 < N)
    (hstart : searchStart tree startId = some (startNodes, initialPath))
    (hcompile : compileStep rp o (lowerCase query) = .ok t?)
    (hcount : N < (searchAll t? (lowerCase query) o startNodes initialPath).length) :
    search rp (some tree) query o startId =
      .ok ((searchAll t? (lowerCase query) o startNodes initialPath).take N) ∧
    ((searchAll t? (lowerCase query) o startNodes initialPath).take N).length = N := by
  constructor
  · simp only [search, hstart, searchRecursive, hcompile]
    rw [searchGo_limited t? (lowerCase query) o N hlim hN startNodes initialPath []
      (by simpa using hN)]
    simp
  · simp only [List.length_take]
    omega

/-- C5 witness: `treeApples` has three matches for `apple`, `limit = 2`
returns the first two in pre-order. -/
theorem search_limit_first_preorder_witness :
    2 <
      (searchAll none (lowerCase "Apple") ⟨false, some 2, false⟩ treeApples []).length ∧
    search rpNone (some treeApples) "Apple" ⟨false, some 2, false⟩ "None" =
      .ok ((searchAll none (lowerCase "Apple") ⟨false, some 2, false⟩ treeApples []).take 2) := by
  have hcount : 2 <
      (searchAll none (lowerCase "Apple") ⟨false, some 2, false⟩ treeApples []).length := by
    simp [searchAll, treeApples, nodeMatches, nodeNameMatch, nodeNoteMatch, mkResult,
      WNode.name, WNode.note, WNode.ch,
      show strIncludes (lowerCase "apple pie") (lowerCase "Apple") = true from by decide,
      show strIncludes (lowerCase "crabapple") (lowerCase "Apple") = true from by decide,
      show strIncludes (lowerCase "APPLE") (lowerCase "Apple") = true from by decide]
  exact ⟨hcount,
    (search_limit_first_preorder rpNone treeApples "Apple" ⟨false, some 2, false⟩ 2
      "None" treeApples [] none rfl (by decide) (by simp [searchStart]) rfl hcount).1⟩

/-- C6 counterexample: searching `treeASC` from start node `s` finds `c`; the
recorded breadcrumbs are `[a, s]` — they contain the segment for `a`, an
ancestor ABOVE the start node, so they are not the chain from the start node
down to the match's parent (which would be `[s]` alone). -/
theorem search_breadcrumbs_cex :
    search rpNone (some treeASC) "target" ⟨false, none, false⟩ "s" =
      .ok [⟨.mk "c" "target" none none [], [⟨"a", "A"⟩, ⟨"s", "S"⟩], .name, "target"⟩] ∧
    [(⟨"a", "A"⟩ : PathSegment), ⟨"s", "S"⟩] ≠ [(⟨"s", "S"⟩ : PathSegment)] := by
  constructor
  · simp [search, searchStart, treeASC, findRecursive, searchRecursive, compileStep,
      searchGo, nodeMatches, nodeNameMatch, nodeNoteMatch, mkResult, limitReached,
      WNode.name, WNode.note, WNode.ch,
      show strIncludes (lowerCase "S") (lowerCase "target") = false from by decide,
      show strIncludes (lowerCase "target") (lowerCase "target") = true from by decide,
      show strIncludes (lowerCase "") (lowerCase "target") = false from by decide]
  · decide

/-- Truncation the limit option imposes on the collected results: a positive
limit keeps the first `limit` results, no limit (or the JS-falsy limit `0`)
keeps them all. -/
def applyLimit (o : SearchOptions) (l : List SearchResult) : List SearchResult :=
  match o.limit with
  | some n => if 0 < n then l.take n else l
  | none => l

/-- C6 amended: for every search from a non-root start node found at
breadcrumbs `p` (any options, any limit), each result's recorded path is `p`
(the start node's own ancestors, mirror root downwards) followed by the chain
from the start node down to the match's parent: the results are exactly the
limit-truncated pre-order match list of the start subtree, each path prefixed
with `p`. -/
theorem search_breadcrumbs_amended (rp : RegexProvider) (tree : List WNode)
    (query : String) (o : SearchOptions) (startId : String) (n : WNode)
    (p : List PathSegment) (t? : Option (String → Bool))
    (hne : (startId == "None") = false)
    (hfind : findRecursive tree startId [] = some (n, p))
    (hcompile : compileStep rp o (lowerCase query) = .ok t?) :
    search rp (some tree) query o startId =
      .ok (applyLimit o ((searchAll t? (lowerCase query) o [n] []).map
        (fun r => ⟨r.node, p ++ r.path, r.matchField, r.matchContent⟩))) := by
  simp only [search, searchStart, hne, Bool.false_eq_true, if_false, hfind,
    searchRecursive, hcompile]
  have hshift : searchAll t? (lowerCase query) o [n] p =
      (searchAll t? (lowerCase query) o [n] []).map
        (fun r => ⟨r.node, p ++ r.path, r.matchField, r.matchContent⟩) := by
    conv_lhs => rw [show p = p ++ ([] : List PathSegment) by simp]
    exact searchAll_shift t? (lowerCase query) o [n] [] p
  cases hl : o.limit with
  | none =>
    rw [searchGo_no_limit t? (lowerCase query) o (limitReached_none o hl)]
    simp [applyLimit, hl, hshift]
  | some N =>
    cases N with
    | zero =>
      rw [searchGo_no_limit t? (lowerCase query) o (limitReached_zero o hl)]
      simp [applyLimit, hl, hshift]
    | succ M =>
      rw [searchGo_limited t? (lowerCase query) o (M + 1) hl (Nat.succ_pos M)
        [n] p [] (by simp)]
      simp [applyLimit, hl, hshift]

/-- C6 witness: the amended statement applied to `treeASC` with start `s`,
once without a limit and once with limit 1. -/
theorem search_breadcrumbs_amended_witness :
    ("s" == "None") = false ∧
    findRecursive treeASC "s" [] =
      some (.mk "s" "S" none none [.mk "c" "target" none none []], [⟨"a", "A"⟩]) ∧
    search rpNone (some treeASC) "target" ⟨false, none, false⟩ "s" =
      .ok (applyLimit ⟨false, none, false⟩
        ((searchAll none (lowerCase "target") ⟨false, none, false⟩
            [.mk "s" "S" none none [.mk "c" "target" none none []]] []).map
          (fun r => ⟨r.node, [⟨"a", "A"⟩] ++ r.path, r.matchField, r.matchContent⟩))) ∧
    search rpNone (some treeASC) "target" ⟨false, some 1, false⟩ "s" =
      .ok (applyLimit ⟨false, some 1, false⟩
        ((searchAll none (lowerCase "target") ⟨false, some 1, false⟩
            [.mk "s" "S" none none [.mk "c" "target" none none []]] []).map
          (fun r => ⟨r.node, [⟨"a", "A"⟩] ++ r.path, r.matchField, r.matchContent⟩))) := by
  have hfind : findRecursive treeASC "s" [] =
      some (.mk "s" "S" none none [.mk "c" "target" none none []], [⟨"a", "A"⟩]) := by
    simp [treeASC, findRecursive]
  exact ⟨rfl, hfind,
    search_breadcrumbs_amended rpNone treeASC "target" ⟨false, none, false⟩ "s"
      (.mk "s" "S" none none [.mk "c" "target" none none []]) [⟨"a", "A"⟩] none
      rfl hfind rfl,
    search_breadcrumbs_amended rpNone treeASC "target" ⟨false, some 1, false⟩ "s"
      (.mk "s" "S" none none [.mk "c" "target" none none []]) [⟨"a", "A"⟩] none
      rfl hfind rfl⟩

/-- C9: `TreeSyncService.search` returns the empty result list, with no error
(and, being a pure function of the resident mirror, without any sync), both
when no mirror is resident and when a non-root start node id does not occur
in the resident mirror. -/
theorem search_empty_on_missing (rp : RegexProvider) (query : String)
    (o : SearchOptions) (startId : String) (tree : List WNode) :
    search rp none query o startId = .ok [] ∧
    ((startId == "None") = false → findRecursive tree startId [] = none →
      search rp (some tree) query o startId = .ok []) := by
  refine ⟨rfl, fun hne hfind => ?_⟩
  simp [search, searchStart, hne, hfind]

/-- C9 witness: an empty mirror and a start id absent from a one-node mirror. -/
theorem search_empty_on_missing_witness :
    search rpNone none "q" ⟨false, none, true⟩ "x" = .ok [] ∧
    search rpNone (some [.mk "a" "A" none none []]) "q" ⟨false, none, true⟩ "x" =
      .ok [] := by
  refine ⟨(search_empty_on_missing rpNone "q" ⟨false, none, true⟩ "x" []).1, ?_⟩
  exact (search_empty_on_missing rpNone "q" ⟨false, none, true⟩ "x"
      [.mk "a" "A" none none []]).2 rfl (by simp [findRecursive])

/-- C8 counterexample: with no resident mirror, a regex search whose pattern
does not compile (the provider models `[`, an invalid JS pattern) returns the
empty list instead of raising the reported error the claim demands. -/
theorem search_regex_invalid_cex :
    rpNone.compile (lowerCase "[") = none ∧
    search rpNone none "[" ⟨false, none, true⟩ "None" = .ok [] :=
  ⟨rfl, rfl⟩

/-- C8 amended: when a mirror is resident and the start node resolves, a regex
search compiles the LOWERCASED query as a case-insensitive pattern, and a
pattern that fails to compile raises `Invalid regular expression`, never an
empty list; with no resident mirror (or an unresolved start node) the pattern
is never compiled and the empty list is returned. -/
theorem search_regex_invalid_amended (rp : RegexProvider) (tree : List WNode)
    (query : String) (o : SearchOptions) (startId : String)
    (sp : List WNode × List PathSegment)
    (hregex : o.isRegex = true)
    (hstart : searchStart tree startId = some sp)
    (hcompile : rp.compile (lowerCase query) = none) :
    search rp (some tree) query o startId =
      .error ("Invalid regular expression: " ++ lowerCase query) := by
  obtain ⟨ns, p⟩ := sp
  simp [search, hstart, searchRecursive, compileStep, hregex, hcompile]

/-- C8 witness: on a resident (empty) mirror the non-compiling pattern `[`
raises the reported error. -/
theorem search_regex_invalid_amended_witness :
    search rpNone (some []) "[" ⟨false, none, true⟩ "None" =
      .error ("Invalid regular expression: " ++ lowerCase "[") :=
  search_regex_invalid_amended rpNone [] "[" ⟨false, none, true⟩ "None" ([], [])
    rfl rfl rfl

/-! ### Path resolver (`src/state/PathResolver.ts`; the identical copy lives in
`Session.resolveOneLevel`, `src/state/session.ts` lines 649–677) -/

/-- Digit run to its decimal value. -/
def digitsToNat (cs : List Char) : Nat :=
  cs.foldl (fun a c => a * 10 + (c.toNat - 48)) 0

/-- JS `parseInt(arg, 10)`: skip leading whitespace, optional sign, then the
longest leading digit run; `NaN` (here `none`) when no digit follows. -/
def jsParseInt (s : String) : Option Int :=
  let cs := s.data.dropWhile (fun c => c == ' ' || c == '\t' || c == '\n' || c == '\r')
  match cs with
  | '-' :: rest =>
    let ds := rest.takeWhile Char.isDigit
    if ds.isEmpty then none else some (-(digitsToNat ds : Int))
  | '+' :: rest =>
    let ds := rest.takeWhile Char.isDigit
    if ds.isEmpty then none else some (digitsToNat ds : Int)
  | _ =>
    let ds := cs.takeWhile Char.isDigit
    if ds.isEmpty then none else some (digitsToNat ds : Int)

/-- Stages 2–4 of `resolveOneLevel` (`PathResolver.ts` lines 84–100): unique
exact name, then id, then unique case-insensitive name prefix; `none` when
nothing resolves uniquely.  Factored out of `resolveOneLevel` so the
fall-through from an out-of-range index can be stated. -/
def resolveByName (children : List WNode) (arg : String) : Option WNode :=
  let exactMatches := children.filter (fun c => c.name == arg)
  if exactMatches.length = 1 then exactMatches.head?
  else
    match children.find? (fun c => c.id == arg) with
    | some n => some n
    | none =>
      let fuzzyMatches := children.filter
        (fun c => (lowerCase arg).data.isPrefixOf (lowerCase c.name).data)
      if fuzzyMatches.length = 1 then fuzzyMatches.head? else none

/-- Embedding of `PathResolver.resolveOneLevel` (`PathResolver.ts` lines 73–101) as a pure
function of the parent's children list: 1-based index first (an out-of-range
or unparsable index falls through), then the name/id/prefix stages. -/
def resolveOneLevel (children : List WNode) (arg : String) : Option WNode :=
  match jsParseInt arg with
  | some index =>
    if 1 ≤ index ∧ index ≤ (children.length : Int) then
      children.get? (index - 1).toNat
    else resolveByName children arg
  | none => resolveByName children arg

/-- The synthetic `{ id, name } as any` shells returned for the root and for
`..` targets. -/
def shellNode (i nm : String) : WNode := .mk i nm none none []

/-- JS `String.prototype.startsWith` for plain strings. -/
def strStarts (s pre : String) : Bool := pre.data.isPrefixOf s.data

/-- JS `String.prototype.split` with a one-character separator. -/
def splitChar (sep : Char) : List Char → List (List Char)
  | [] => [[]]
  | c :: rest =>
    let r := splitChar sep rest
    if c == sep then [] :: r
    else
      match r with
      | [] => [[c]]
      | h :: t => (c :: h) :: t

/-- The segment loop of `PathResolver.resolvePath` (lines 45–68): `..` pops
the breadcrumb stack (no-op shell at root), any other segment goes through
`resolveOneLevel` against the children of the current lookup id, and an
unresolved segment aborts the whole resolution. -/
def resolveSegments (childrenOf : String → List WNode) :
    List String → String → List PathSegment → Option WNode → Option WNode
  | [], _, _, current => current
  | seg :: rest, lookupId, pathStack, current =>
    if seg == ".." then
      if 1 < pathStack.length then
        let pathStack2 := pathStack.dropLast
        match pathStack2.getLast? with
        | some parent =>
          resolveSegments childrenOf rest parent.id pathStack2
            (some (shellNode parent.id parent.name))
        | none => resolveSegments childrenOf rest lookupId pathStack2 current
      else
        resolveSegments childrenOf rest lookupId pathStack
          (some (shellNode "None" "/"))
    else
      match resolveOneLevel (childrenOf lookupId) seg with
      | none => none
      | some nextNode =>
        resolveSegments childrenOf rest nextNode.id
          (pathStack ++ [⟨nextNode.id, nextNode.name⟩]) (some nextNode)

/-- Embedding of `PathResolver.resolvePath` (`PathResolver.ts` lines 11–71).  `childrenOf`
abstracts `nodeService.getChildren`; anchors `~`, `~/` and `/` reset to the
root, empty and `.` segments are dropped, and an empty segment list returns a
shell for the current location. -/
def resolvePath (childrenOf : String → List WNode) (pathStr : String)
    (currentId : String) (currentPathStack : List PathSegment) : Option WNode :=
  if pathStr == "~" then some (shellNode "None" "/")
  else
    let start :=
      if strStarts pathStr "~/" then
        ("None", [(⟨"None", "/"⟩ : PathSegment)], String.mk (pathStr.data.drop 2))
      else if strStarts pathStr "/" then
        ("None", [(⟨"None", "/"⟩ : PathSegment)], String.mk (pathStr.data.drop 1))
      else (currentId, currentPathStack, pathStr)
    let segments := ((splitChar '/' start.2.2.data).map String.mk).filter
      (fun s => !(s == "") && !(s == "."))
    if segments.isEmpty then
      if start.1 == "None" then some (shellNode "None" "/")
      else
        some (shellNode start.1
          (match currentPathStack.getLast? with
           | some sg => if sg.name == "" then "?" else sg.name
           | none => "?"))
    else resolveSegments childrenOf segments start.1 start.2.1 none

/-- Fixture for the C7 scenario: root children `Projects` (order 0) and
`Personal` (order 1). -/
def cfProj : String → List WNode := fun pid =>
  if pid == "None" then
    [.mk "a" "Projects" none (some 0) [], .mk "b" "Personal" none (some 1) []]
  else []

/-- Fixture for the ambiguous-prefix scenario: `Projects` and `Profile`. -/
def cfAmbig : String → List WNode := fun pid =>
  if pid == "None" then
    [.mk "a" "Projects" none (some 0) [], .mk "c" "Profile" none (some 1) []]
  else []

/-- The name/id/prefix stages yield nothing exactly when the exact-name match
is not unique, no child has the segment as id, and the case-insensitive
prefix match is not unique. -/
theorem resolveByName_none_iff (children : List WNode) (arg : String) :
    resolveByName children arg = none ↔
      (children.filter (fun c => c.name == arg)).length ≠ 1 ∧
      children.find? (fun c => c.id == arg) = none ∧
      (children.filter
        (fun c => (lowerCase arg).data.isPrefixOf (lowerCase c.name).data)).length ≠ 1 := by
  simp only [resolveByName]
  by_cases h1 : (children.filter (fun c => c.name == arg)).length = 1
  · obtain ⟨x, hx⟩ := List.length_eq_one.mp h1
    simp [h1, hx]
  · rw [if_neg h1]
    cases hf : children.find? (fun c => c.id == arg) with
    | some n => simp [h1, hf]
    | none =>
      by_cases h2 : (children.filter
          (fun c => (lowerCase arg).data.isPrefixOf (lowerCase c.name).data)).length = 1
      · obtain ⟨x, hx⟩ := List.length_eq_one.mp h2
        simp [h1, h2, hx]
      · simp [h1, h2]

/-- A segment is unresolvable exactly when every strategy fails: the parsed
index (if any) is out of range, and the exact-name, id and prefix stages all
fail to resolve uniquely. -/
theorem resolveOneLevel_none_iff (children : List WNode) (arg : String) :
    resolveOneLevel children arg = none ↔
      (∀ index : Int, jsParseInt arg = some index →
        ¬(1 ≤ index ∧ index ≤ (children.length : Int))) ∧
      (children.filter (fun c => c.name == arg)).length ≠ 1 ∧
      children.find? (fun c => c.id == arg) = none ∧
      (children.filter
        (fun c => (lowerCase arg).data.isPrefixOf (lowerCase c.name).data)).length ≠ 1 := by
  cases hp : jsParseInt arg with
  | none =>
    simp only [resolveOneLevel, hp]
    rw [resolveByName_none_iff]
    constructor
    · rintro ⟨h1, h2, h3⟩
      refine ⟨fun i hi => ?_, h1, h2, h3⟩
      cases hi
    · rintro ⟨_, h1, h2, h3⟩
      exact ⟨h1, h2, h3⟩
  | some index =>
    simp only [resolveOneLevel, hp]
    by_cases hr : 1 ≤ index ∧ index ≤ (children.length : Int)
    · rw [if_pos hr]
      have hlt : (index - 1).toNat < children.length := by omega
      constructor
      · intro h
        rw [List.get?_eq_getElem?, List.getElem?_eq_getElem hlt] at h
        cases h
      · rintro ⟨hidx, _⟩
        exact absurd hr (hidx index rfl)
    · rw [if_neg hr, resolveByName_none_iff]
      constructor
      · rintro ⟨h1, h2, h3⟩
        refine ⟨fun i hi => ?_, h1, h2, h3⟩
        injection hi with hi
        subst hi
        exact hr
      · rintro ⟨_, h1, h2, h3⟩
        exact ⟨h1, h2, h3⟩

/-- C7: single-segment resolution tries index, exact name, id, then
case-insensitive prefix; an ambiguous exact or prefix stage falls through,
and a segment is not found exactly when no strategy resolves uniquely.
Conjuncts: the spec scenario (`resolvePath "2"` → `b`, `resolvePath "Proj"` →
`a`, ambiguous `resolvePath "Pro"` → NotFound), an ambiguous-exact-name
instance falling through to the id stage, and the failure characterization. -/
theorem resolveOneLevel_strategy_order :
    resolvePath cfProj "2" "None" [⟨"None", "/"⟩] =
      some (.mk "b" "Personal" none (some 1) []) ∧
    resolvePath cfProj "Proj" "None" [⟨"None", "/"⟩] =
      some (.mk "a" "Projects" none (some 0) []) ∧
    resolvePath cfAmbig "Pro" "None" [⟨"None", "/"⟩] = none ∧
    resolveOneLevel
      [.mk "u1" "Dup" none none [], .mk "u2" "Dup" none none [],
        .mk "Dup" "Zed" none none []] "Dup" =
      some (.mk "Dup" "Zed" none none []) ∧
    (∀ (children : List WNode) (arg : String),
      resolveOneLevel children arg = none ↔
        (∀ index : Int, jsParseInt arg = some index →
          ¬(1 ≤ index ∧ index ≤ (children.length : Int))) ∧
        (children.filter (fun c => c.name == arg)).length ≠ 1 ∧
        children.find? (fun c => c.id == arg) = none ∧
        (children.filter
          (fun c => (lowerCase arg).data.isPrefixOf (lowerCase c.name).data)).length ≠ 1) :=
  ⟨rfl, rfl, rfl, rfl, resolveOneLevel_none_iff⟩

/-- C7 witness: the failure characterization applied at a concrete unresolvable
segment. -/
theorem resolveOneLevel_strategy_order_witness :
    resolveOneLevel [WNode.mk "a" "Projects" none (some 0) []] "zzz" = none :=
  (resolveOneLevel_strategy_order.2.2.2.2
    [WNode.mk "a" "Projects" none (some 0) []] "zzz").mpr
    (by
      refine ⟨fun i hi => (nomatch hi), ?_, rfl, ?_⟩ <;> decide)

/-- C10: an out-of-range (or unparsable-as-in-range) index falls through to
the name/id/prefix stages rather than failing; `parseInt` takes the leading
digits, so `2abc` resolves by index to position 2 even when a child is
literally named `2abc`. -/
theorem resolveOneLevel_index_fallthrough :
    (∀ (children : List WNode) (arg : String) (index : Int),
      jsParseInt arg = some index →
      ¬(1 ≤ index ∧ index ≤ (children.length : Int)) →
      resolveOneLevel children arg = resolveByName children arg) ∧
    jsParseInt "2abc" = some 2 ∧
    resolveOneLevel
      [.mk "x" "2abc" none none [], .mk "y" "Other" none none []] "2abc" =
      some (.mk "y" "Other" none none []) := by
  refine ⟨fun children arg index hp hr => ?_, rfl, rfl⟩
  simp [resolveOneLevel, hp, hr]

/-- C10 witness: index `9` is out of range for a one-child list, so resolution
falls through to the name stages. -/
theorem resolveOneLevel_index_fallthrough_witness :
    jsParseInt "9" = some 9 ∧
    ¬((1 : Int) ≤ 9 ∧ (9 : Int) ≤ (([WNode.mk "x" "N" none none []].length : Nat) : Int)) ∧
    resolveOneLevel [WNode.mk "x" "N" none none []] "9" =
      resolveByName [WNode.mk "x" "N" none none []] "9" :=
  ⟨rfl, by decide,
    resolveOneLevel_index_fallthrough.1 [WNode.mk "x" "N" none none []] "9" 9 rfl
      (by decide)⟩

/-! ### Tree mirror and sync engine state (`src/state/sync.ts`).

The service state is the fields of `TreeSyncService`; `Date.now()` and the
outcome of the remote fetch (`fetchFullTree`, including its 60-second timeout
race, which surfaces as an error) are explicit parameters.  `syncInProgress`
interleaving is modelled separately for the concurrency claim; the operations
below are a single call's sequential semantics, during which no other sync is
in flight. -/

/-- The persisted `TreeCache` record `{ syncedAt, root }` (`sync.ts` lines
6–9).  A malformed or unreadable record is modelled as an absent one, exactly
how `tryLoadCache` treats it. -/
structure CacheRecord where
  syncedAt : Nat
  root : List WNode

/-- The mutable fields of `TreeSyncService` (`sync.ts` lines 34–37). -/
structure SyncState where
  cache : Option CacheRecord
  inMemoryTree : Option (List WNode)
  lastSyncedAt : Nat

/-- Embedding of `TreeSyncService.tryLoadCache` (`sync.ts` lines 69–82): hydrate the
in-memory mirror from the persisted record when no mirror is resident. -/
def tryLoadCache (st : SyncState) : SyncState :=
  if st.inMemoryTree.isSome then st
  else
    match st.cache with
    | some c => { st with inMemoryTree := some c.root, lastSyncedAt := c.syncedAt }
    | none => st

/-- Embedding of `TreeSyncService.syncBlocking` (`sync.ts` lines 145–193).  `fetchResult`
is the outcome of the raced `fetchFullTree` (an error for both a network/auth
failure and the 60-second timeout).  On success the record and the mirror are
replaced and `syncedAt`/`lastSyncedAt` are set to `now`; on failure the stale
in-memory mirror is returned when one exists, otherwise the error is
rethrown. -/
def syncBlocking (st : SyncState) (fetchResult : Except String (List WNode))
    (now : Nat) : SyncState × Except String (List WNode) :=
  match fetchResult with
  | .ok tree =>
    (⟨some ⟨now, tree⟩, some tree, now⟩, .ok tree)
  | .error e =>
    match st.inMemoryTree with
    | some t => (st, .ok t)
    | none => (st, .error e)

/-- Embedding of `TreeSyncService.forceSync` (`sync.ts` lines 120–122): just
`syncBlocking`. -/
def forceSync (st : SyncState) (fetchResult : Except String (List WNode))
    (now : Nat) : SyncState × Except String (List WNode) :=
  syncBlocking st fetchResult now

/-- Embedding of `TreeSyncService.syncInBackground` (`sync.ts` lines 127–140): the detached
sync's `.catch` swallows the failure and falls back to the previous mirror
(or `[]`).  The result value is what the joined promise would resolve to;
it can never be an error. -/
def syncInBackground (st : SyncState) (fetchResult : Except String (List WNode))
    (now : Nat) : SyncState × List WNode :=
  match syncBlocking st fetchResult now with
  | (st2, .ok t) => (st2, t)
  | (st2, .error _) => (st2, st2.inMemoryTree.getD [])

/-- Set the children of the first node with the given id, in the depth-first
order of `findRecursive`; models the graft `target.node.ch = subtree` of
`syncSubtree` (line 282–283). -/
def setChInList : List WNode → String → List WNode → List WNode × Bool
  | [], _, _ => ([], false)
  | (WNode.mk i nm nt kv ch) :: rest, targetId, sub =>
    if i == targetId then ((WNode.mk i nm nt kv sub) :: rest, true)
    else
      match setChInList ch targetId sub with
      | (ch2, true) => ((WNode.mk i nm nt kv ch2) :: rest, true)
      | (_, false) =>
        let r := setChInList rest targetId sub
        ((WNode.mk i nm nt kv ch) :: r.1, r.2)

/-- A `{ id, name, ch }` stub created during skeleton grafting (`sync.ts`
lines 255–259 and 270–274). -/
def stubNode (seg : PathSegment) (ch : List WNode) : WNode :=
  .mk seg.id seg.name none none ch

/-- Set the children of the first node with the given id at the top level
only (`currentLevel.find(n => n.id === segment.id)` followed by
`node.ch = ...`); `none` when no node at this level has the id. -/
def setChAtLevel : List WNode → String → List WNode → Option (List WNode)
  | [], _, _ => none
  | (WNode.mk i nm nt kv ch) :: rest, targetId, sub =>
    if i == targetId then some ((WNode.mk i nm nt kv sub) :: rest)
    else (setChAtLevel rest targetId sub).map (fun r => (WNode.mk i nm nt kv ch) :: r)

/-- The skeleton-grafting walk of `syncSubtree` (`sync.ts` lines 241–279),
over `pathContext` with its root entry already dropped: walk level by level
(creating stubs for ids missing from the current level) until a segment
carries the target id, and attach `subtree` there; returns the updated level
and whether the target was reached.  Stubs pushed before a failed walk remain
in the tree, as in the source. -/
def skeletonWalk (nodeId : String) (subtree : List WNode) :
    List WNode → List PathSegment → List WNode × Bool
  | level, [] => (level, false)
  | level, seg :: rest =>
    if seg.id == nodeId then
      match setChAtLevel level seg.id subtree with
      | some level2 => (level2, true)
      | none => (level ++ [stubNode seg subtree], true)
    else
      match level.findIdx? (fun n => n.id == seg.id) with
      | some j =>
        let node := level.getD j (stubNode seg [])
        let inner := skeletonWalk nodeId subtree node.ch rest
        (level.set j (node.withCh inner.1), inner.2)
      | none =>
        let inner := skeletonWalk nodeId subtree [] rest
        (level ++ [stubNode seg inner.1], inner.2)

/-- Whether `pathContext` starts with the root segment:
`options.pathContext && options.pathContext.length > 0 &&
options.pathContext[0]?.id === 'None'` (`sync.ts` line 214). -/
def rootAnchored (pc : List PathSegment) : Bool :=
  match pc with
  | s :: _ => s.id == "None"
  | [] => false

/-- Embedding of `TreeSyncService.syncSubtree` (`sync.ts` lines 204–307).  `subFetch` is
the outcome of `fetchFullTree(nodeId)`, `fullFetch` the outcome of the
full-tree fetch performed by a fallback `syncBlocking`.  The source calls
`tryLoadCache` only when no mirror is resident; `tryLoadCache` is itself a
no-op in the other case, so it is applied unconditionally here. -/
def syncSubtree (st0 : SyncState) (nodeId : String) (pathContext : List PathSegment)
    (subFetch fullFetch : Except String (List WNode)) (now : Nat) :
    SyncState × Except String (List WNode) :=
  let st1 := tryLoadCache st0
  if st1.inMemoryTree.isNone ∧ rootAnchored pathContext = false then
    syncBlocking st1 fullFetch now
  else
    let st2 : SyncState :=
      if st1.inMemoryTree.isNone then ⟨st1.cache, some [], st1.lastSyncedAt⟩ else st1
    match subFetch with
    | .error e => (st2, .error e)
    | .ok subtree =>
      let tree := st2.inMemoryTree.getD []
      if (findRecursive tree nodeId []).isSome then
        let newTree := (setChInList tree nodeId subtree).1
        (⟨some ⟨st2.lastSyncedAt, newTree⟩, some newTree, st2.lastSyncedAt⟩, .ok subtree)
      else if pathContext.isEmpty then
        syncBlocking st2 fullFetch now
      else
        let walked := skeletonWalk nodeId subtree tree (pathContext.drop 1)
        if walked.2 then
          (⟨some ⟨st2.lastSyncedAt, walked.1⟩, some walked.1, st2.lastSyncedAt⟩,
            .ok subtree)
        else
          syncBlocking ⟨st2.cache, some walked.1, st2.lastSyncedAt⟩ fullFetch now

/-- Constant `CACHE_TTL_MS` (`sync.ts` line 11). -/
def CACHE_TTL_MS : Nat := 5 * 60 * 1000

/-- The staleness check `Date.now() - this.lastSyncedAt > CACHE_TTL_MS`. -/
def isStaleAt (st : SyncState) (now : Nat) : Bool :=
  decide (CACHE_TTL_MS < now - st.lastSyncedAt)

/-- Embedding of `TreeSyncService.getTree` (`sync.ts` lines 90–115).  The returned triple
is `{ tree, stale, syncingInBackground }`.  A stale cache hit fires a
detached background sync (modelled by the returned flag, which the source
computes as `!!this.syncInProgress` immediately after the trigger); the
detached task's own effect happens outside this call. -/
def getTree (st : SyncState) (forceRefresh : Bool)
    (fetchResult : Except String (List WNode)) (now : Nat) :
    SyncState × Except String (List WNode × Bool × Bool) :=
  match st.inMemoryTree, forceRefresh with
  | some t, false =>
    let stale := isStaleAt st now
    (st, .ok (t, stale, stale))
  | _, _ =>
    let st1 :=
      if st.inMemoryTree.isNone && !forceRefresh then tryLoadCache st else st
    match st1.inMemoryTree, forceRefresh with
    | some t, false =>
      let stale := isStaleAt st1 now
      (st1, .ok (t, stale, stale))
    | _, _ =>
      match syncBlocking st1 fetchResult now with
      | (st2, .ok tree) => (st2, .ok (tree, false, false))
      | (st2, .error e) => (st2, .error e)

/-- The empty initial service state: nothing persisted, nothing resident. -/
def stEmpty : SyncState := ⟨none, none, 0⟩

/-- A state with a one-node resident mirror and no persisted record. -/
def stWithMirror : SyncState := ⟨none, some [WNode.mk "n" "N" none none []], 0⟩

/-- C1 counterexample: a `syncSubtree` call on an empty state with no path
context falls back to a full blocking sync, which changes `syncedAt` — both
the in-memory `lastSyncedAt` (0 before, 5 after) and the persisted record
(absent before, `syncedAt = 5` after). -/
theorem syncSubtree_syncedAt_cex :
    (syncSubtree stEmpty "x" [] (.ok []) (.ok [WNode.mk "n" "N" none none []]) 5).1.lastSyncedAt =
      5 ∧
    (syncSubtree stEmpty "x" [] (.ok []) (.ok [WNode.mk "n" "N" none none []]) 5).1.cache.map
      CacheRecord.syncedAt = some 5 ∧
    stEmpty.lastSyncedAt = 0 ∧ stEmpty.cache = none :=
  ⟨rfl, rfl, rfl, rfl⟩

/-- C1 amended: a `syncSubtree` call that actually grafts (the target is found
in the hydrated mirror, or skeleton grafting over `pathContext` reaches it)
leaves `syncedAt` unchanged — the persisted record keeps the pre-call
`lastSyncedAt`; but when `syncSubtree` has no hydrated mirror and no
root-anchored path context, or has a hydrated mirror but finds no graft
target and was given an empty path context, it falls back to a full blocking
sync whose success sets `syncedAt` to the current time.  A successful `forceSync` sets `syncedAt` to `now`, a
strict advance whenever the clock has moved since the previous sync. -/
theorem syncSubtree_syncedAt_frame :
    (∀ (st : SyncState) (nodeId : String) (pc : List PathSegment)
        (subtree : List WNode) (fullFetch : Except String (List WNode))
        (now : Nat) (tree : List WNode),
      (tryLoadCache st).inMemoryTree = some tree →
      (findRecursive tree nodeId []).isSome = true →
      (syncSubtree st nodeId pc (.ok subtree) fullFetch now).1.lastSyncedAt =
          (tryLoadCache st).lastSyncedAt ∧
        (syncSubtree st nodeId pc (.ok subtree) fullFetch now).1.cache.map
          CacheRecord.syncedAt = some (tryLoadCache st).lastSyncedAt ∧
        (syncSubtree st nodeId pc (.ok subtree) fullFetch now).2 = .ok subtree) ∧
    (∀ (st : SyncState) (nodeId : String) (pc : List PathSegment)
        (subtree : List WNode) (fullFetch : Except String (List WNode))
        (now : Nat) (tree : List WNode),
      (tryLoadCache st).inMemoryTree = some tree →
      findRecursive tree nodeId [] = none →
      pc.isEmpty = false →
      (skeletonWalk nodeId subtree tree (pc.drop 1)).2 = true →
      (syncSubtree st nodeId pc (.ok subtree) fullFetch now).1.lastSyncedAt =
          (tryLoadCache st).lastSyncedAt ∧
        (syncSubtree st nodeId pc (.ok subtree) fullFetch now).1.cache.map
          CacheRecord.syncedAt = some (tryLoadCache st).lastSyncedAt ∧
        (syncSubtree st nodeId pc (.ok subtree) fullFetch now).2 = .ok subtree) ∧
    (∀ (st : SyncState) (nodeId : String) (pc : List PathSegment)
        (subFetch : Except String (List WNode)) (fullTree : List WNode) (now : Nat),
      (tryLoadCache st).inMemoryTree = none →
      rootAnchored pc = false →
      (syncSubtree st nodeId pc subFetch (.ok fullTree) now).1.lastSyncedAt = now ∧
        (syncSubtree st nodeId pc subFetch (.ok fullTree) now).1.cache.map
          CacheRecord.syncedAt = some now) ∧
    (∀ (st : SyncState) (nodeId : String) (subtree : List WNode)
        (fullTree : List WNode) (now : Nat) (tree : List WNode),
      (tryLoadCache st).inMemoryTree = some tree →
      findRecursive tree nodeId [] = none →
      (syncSubtree st nodeId [] (.ok subtree) (.ok fullTree) now).1.lastSyncedAt =
          now ∧
        (syncSubtree st nodeId [] (.ok subtree) (.ok fullTree) now).1.cache.map
          CacheRecord.syncedAt = some now) ∧
    (∀ (st : SyncState) (tree : List WNode) (now : Nat),
      (forceSync st (.ok tree) now).1.lastSyncedAt = now ∧
        (forceSync st (.ok tree) now).1.cache.map CacheRecord.syncedAt = some now ∧
        (st.lastSyncedAt < now →
          st.lastSyncedAt < (forceSync st (.ok tree) now).1.lastSyncedAt)) := by
  refine ⟨?_, ?_, ?_, ?_, ?_⟩
  · intro st nodeId pc subtree fullFetch now tree htree hfound
    simp [syncSubtree, htree, hfound]
  · intro st nodeId pc subtree fullFetch now tree htree hfind hpc hwalk
    rw [List.drop_one] at hwalk
    simp [syncSubtree, htree, hfind, hpc, hwalk]
  · intro st nodeId pc subFetch fullTree now hnone hpc
    simp [syncSubtree, hnone, hpc, syncBlocking]
  · intro st nodeId subtree fullTree now tree htree hfind
    simp [syncSubtree, htree, hfind, syncBlocking]
  · intro st tree now
    exact ⟨rfl, rfl, fun h => h⟩

/-- C1 witness: a direct graft on a resident one-node mirror keeps
`lastSyncedAt`, and a successful `forceSync` at time 7 sets it to 7. -/
theorem syncSubtree_syncedAt_frame_witness :
    (tryLoadCache stWithMirror).inMemoryTree = some [WNode.mk "n" "N" none none []] ∧
    (findRecursive [WNode.mk "n" "N" none none []] "n" []).isSome = true ∧
    (syncSubtree stWithMirror "n" [] (.ok []) (.ok []) 7).1.lastSyncedAt =
      (tryLoadCache stWithMirror).lastSyncedAt ∧
    findRecursive [WNode.mk "n" "N" none none []] "zz" [] = none ∧
    (syncSubtree stWithMirror "zz" [] (.ok []) (.ok []) 9).1.lastSyncedAt = 9 ∧
    (forceSync stEmpty (.ok []) 7).1.lastSyncedAt = 7 :=
  ⟨rfl, by simp [findRecursive],
    (syncSubtree_syncedAt_frame.1 stWithMirror "n" [] [] (.ok []) 7
      [WNode.mk "n" "N" none none []] rfl (by simp [findRecursive])).1,
    by simp [findRecursive],
    (syncSubtree_syncedAt_frame.2.2.2.1 stWithMirror "zz" [] [] 9
      [WNode.mk "n" "N" none none []] rfl (by simp [findRecursive])).1,
    (syncSubtree_syncedAt_frame.2.2.2.2 stEmpty [] 7).1⟩

/-- C3 counterexample: `forceSync` — a foreground blocking sync — with a
resident mirror swallows a network failure and resolves with the stale mirror
instead of surfacing an error. -/
theorem syncFailure_foreground_cex :
    forceSync stWithMirror (.error "network error") 99 =
      (stWithMirror, .ok [WNode.mk "n" "N" none none []]) :=
  rfl

/-- C3 amended: a blocking sync surfaces a remote failure as an error exactly
when NO mirror is resident in memory; with a resident mirror it returns the
stale mirror instead (so `forceSync` and `getTree(forceRefresh)` only error
on a cold cache), and a background sync always swallows the failure, yielding
the previous mirror (or `[]`). -/
theorem syncFailure_surfaced_amended (st : SyncState) (e : String) (now : Nat) :
    (st.inMemoryTree = none → syncBlocking st (.error e) now = (st, .error e)) ∧
    (∀ t, st.inMemoryTree = some t → syncBlocking st (.error e) now = (st, .ok t)) ∧
    (syncInBackground st (.error e) now = (st, st.inMemoryTree.getD [])) ∧
    (st.inMemoryTree = none → st.cache = none →
      ∀ forceRefresh, getTree st forceRefresh (.error e) now = (st, .error e)) := by
  refine ⟨fun h => by simp [syncBlocking, h], fun t h => by simp [syncBlocking, h],
    ?_, fun h hc forceRefresh => ?_⟩
  · cases hm : st.inMemoryTree with
    | some t => simp [syncInBackground, syncBlocking, hm]
    | none => simp [syncInBackground, syncBlocking, hm]
  · cases forceRefresh with
    | true => simp [getTree, h, hc, syncBlocking, tryLoadCache]
    | false => simp [getTree, h, hc, syncBlocking, tryLoadCache]

/-- C3 witness: on the empty state every foreground path errors, and the
background sync on a mirror-holding state swallows the same failure. -/
theorem syncFailure_surfaced_amended_witness :
    syncBlocking stEmpty (.error "auth") 3 = (stEmpty, .error "auth") ∧
    syncInBackground stWithMirror (.error "auth") 3 =
      (stWithMirror, [WNode.mk "n" "N" none none []]) ∧
    getTree stEmpty true (.error "auth") 3 = (stEmpty, .error "auth") :=
  ⟨(syncFailure_surfaced_amended stEmpty "auth" 3).1 rfl,
    (syncFailure_surfaced_amended stWithMirror "auth" 3).2.2.1,
    (syncFailure_surfaced_amended stEmpty "auth" 3).2.2.2 rfl rfl true⟩

/-! ### Concurrency model for `getTree` (claim C2).

Two concurrent `getTree()` invocations on a cold cache, with cooperative
interleaving at the `await` points of `sync.ts`.  Each constructor of `GStep`
embeds one atomic segment of source code between suspension points; the disk
cache is empty in this scenario, so a task whose in-memory check fails enters
`syncBlocking` directly (lines 90–114), and `fetchCount` counts how many
remote fetch sequences (`fetchFullTree` calls from line 159) are started. -/

/-- Control point of one `getTree` task: before the cache check; at the
`syncInProgress` check opening `syncBlocking` (line 147); awaiting its own
fetch; returned with the cached tree; returned with a synced tree. -/
inductive TaskPC : Type where
  | start
  | entered
  | fetching
  | doneCached
  | doneSynced
  deriving DecidableEq, Repr

/-- The two concurrent callers. -/
inductive TaskId : Type where
  | one
  | two
  deriving DecidableEq, Repr

/-- Shared service state plus both tasks' control points. -/
structure ConcState where
  tree : Option (List WNode)
  syncInProgress : Bool
  fetchCount : Nat
  pc1 : TaskPC
  pc2 : TaskPC

def ConcState.pc (s : ConcState) : TaskId → TaskPC
  | .one => s.pc1
  | .two => s.pc2

def ConcState.setPc (s : ConcState) : TaskId → TaskPC → ConcState
  | .one, p => ⟨s.tree, s.syncInProgress, s.fetchCount, p, s.pc2⟩
  | .two, p => ⟨s.tree, s.syncInProgress, s.fetchCount, s.pc1, p⟩

/-- One interleaving step.  `startCached`: line 92, in-memory hit returns
immediately.  `startEmpty`: lines 92–113, no mirror and empty disk cache, the
task calls `syncBlocking`.  `enterFetch`: line 147 finds `syncInProgress`
null — `syncBlocking` does NOT set it — and starts its own `fetchFullTree`.
`enterJoin`: line 148 would join a pending promise were `syncInProgress` set.
`commit`: lines 168–181, the fetch resolves and the task installs the tree
and returns it. -/
inductive GStep (fetched : List WNode) : ConcState → ConcState → Prop where
  | startCached (s : ConcState) (i : TaskId) (t : List WNode) :
      s.pc i = .start → s.tree = some t →
      GStep fetched s (s.setPc i .doneCached)
  | startEmpty (s : ConcState) (i : TaskId) :
      s.pc i = .start → s.tree = none →
      GStep fetched s (s.setPc i .entered)
  | enterFetch (s : ConcState) (i : TaskId) :
      s.pc i = .entered → s.syncInProgress = false →
      GStep fetched s { s.setPc i .fetching with fetchCount := s.fetchCount + 1 }
  | enterJoin (s : ConcState) (i : TaskId) :
      s.pc i = .entered → s.syncInProgress = true →
      GStep fetched s (s.setPc i .doneSynced)
  | commit (s : ConcState) (i : TaskId) :
      s.pc i = .fetching →
      GStep fetched s { s.setPc i .doneSynced with tree := some fetched }

/-- Cold cache, both calls pending. -/
def concInit : ConcState := ⟨none, false, 0, .start, .start⟩

/-- The interleaving of the C2 scenario: both tasks check the cache before
either completes; each starts its own fetch. -/
theorem concTrace (fetched : List WNode) :
    Relation.ReflTransGen (GStep fetched) concInit
      ⟨some fetched, false, 2, .doneSynced, .doneSynced⟩ :=
  .head (.startEmpty concInit .one rfl rfl) <|
  .head (.startEmpty _ .two rfl rfl) <|
  .head (.enterFetch _ .one rfl rfl) <|
  .head (.enterFetch _ .two rfl rfl) <|
  .head (.commit _ .one rfl) <|
  .head (.commit _ .two rfl) .refl

/-- C2 counterexample: a complete execution of the scenario (cache empty, two
concurrent `getTree()` calls, both checking the cache before either finishes)
in which TWO remote fetch sequences occur, not the one the claim demands. -/
theorem getTree_single_flight_cex :
    Relation.ReflTransGen (GStep [WNode.mk "n" "N" none none []]) concInit
      ⟨some [WNode.mk "n" "N" none none []], false, 2, .doneSynced, .doneSynced⟩ ∧
    (2 : Nat) ≠ 1 :=
  ⟨concTrace _, by decide⟩

/-- How many fetches a task at this control point has started. -/
def fetchWeight : TaskPC → Nat
  | .fetching => 1
  | .doneSynced => 1
  | _ => 0

/-- Reachability invariant: `syncInProgress` is never set (only
`syncInBackground` assigns it, and this scenario never triggers a background
sync), so the join branch of `syncBlocking` is dead, and the fetch counter
equals the number of tasks that went through `enterFetch`. -/
theorem concInvariant (fetched : List WNode) (s : ConcState)
    (h : Relation.ReflTransGen (GStep fetched) concInit s) :
    s.syncInProgress = false ∧
      s.fetchCount = fetchWeight s.pc1 + fetchWeight s.pc2 := by
  induction h with
  | refl => exact ⟨rfl, rfl⟩
  | tail hab hbc ih =>
    cases hbc with
    | startCached i t hpc htree =>
      cases i <;>
        simp_all [ConcState.setPc, ConcState.pc, fetchWeight]
    | startEmpty i hpc htree =>
      cases i <;>
        simp_all [ConcState.setPc, ConcState.pc, fetchWeight]
    | enterFetch i hpc hsip =>
      cases i <;>
        (simp_all [ConcState.setPc, ConcState.pc, fetchWeight]; try omega)
    | enterJoin i hpc hsip =>
      simp [ih.1] at hsip
    | commit i hpc =>
      cases i <;>
        simp_all [ConcState.setPc, ConcState.pc, fetchWeight]

/-- C2 amended: in every complete execution of the scenario (both concurrent
`getTree` calls finish through the blocking-sync path), exactly TWO remote
fetch sequences have occurred — `syncBlocking` never records itself in
`syncInProgress`, so the second caller cannot join the first; the
single-flight dedup exists only for background syncs. -/
theorem getTree_single_flight_amended (fetched : List WNode) (s : ConcState)
    (h : Relation.ReflTransGen (GStep fetched) concInit s)
    (h1 : s.pc1 = .doneSynced) (h2 : s.pc2 = .doneSynced) :
    s.fetchCount = 2 := by
  obtain ⟨-, hc⟩ := concInvariant fetched s h
  rw [hc, h1, h2]
  rfl

/-- C2 witness: the amended theorem applied to the explicit interleaving. -/
theorem getTree_single_flight_amended_witness :
    (⟨some [], false, 2, .doneSynced, .doneSynced⟩ : ConcState).fetchCount = 2 :=
  getTree_single_flight_amended [] _ (concTrace []) rfl rfl

/-! ### Full-tree fetch and the two-tier children lookup (claim C4). -/

/-- Embedding of `TreeSyncService.fetchFullTree` (`sync.ts` lines 312–332): fetch the
children of `parentId` from the remote store and recursively fill in their
descendants. `store` is the per-parent result of `client.getNodes`, which the
real client returns verbatim (`data.nodes || []`, `client.ts` line 82–86).
The source recursion is unbounded; `fuel` only bounds the modelled depth, and
for any store whose reachable depth is below the fuel the result is exact.
No sorting happens at any level. -/
def fetchFullTree (store : String → List WNode) : Nat → String → List WNode
  | 0, _ => []
  | fuel + 1, parentId =>
    (store parentId).map (fun c => c.withCh (fetchFullTree store fuel c.id))

/-- Embedding of `children.sort((a, b) => (a.k || 0) - (b.k || 0))` from
`NodeService.getChildren`: ECMAScript `Array.prototype.sort` is stable, hence
the stable insertion sort by the `kOrZero` key. -/
def sortByK (l : List WNode) : List WNode :=
  List.insertionSort (fun a b => kOrZero a ≤ kOrZero b) l

/-- Adjacent-pairs check that a children list is ascending by `order`. -/
def sortedByK : List WNode → Bool
  | [] => true
  | [_] => true
  | a :: b :: rest => decide (kOrZero a ≤ kOrZero b) && sortedByK (b :: rest)

theorem sortedByK_of_pairwise : ∀ l : List WNode,
    l.Pairwise (fun a b => kOrZero a ≤ kOrZero b) → sortedByK l = true
  | [], _ => rfl
  | [_], _ => rfl
  | _ :: b :: rest, h => by
    rw [List.pairwise_cons] at h
    simp only [sortedByK, Bool.and_eq_true, decide_eq_true_eq]
    exact ⟨h.1 b (by simp), sortedByK_of_pairwise (b :: rest) h.2⟩

/-- The `NodeService` state relevant to `getChildren`: the strict per-parent
cache (a JS `Map`, modelled as an association list with shadowing insert) and
the sync service's resident mirror. -/
structure NodeServiceState where
  nodeCache : List (String × List WNode)
  inMemoryTree : Option (List WNode)

def lookupCache (m : List (String × List WNode)) (key : String) :
    Option (List WNode) :=
  (m.find? (fun p => p.1 == key)).map Prod.snd

def insertCache (m : List (String × List WNode)) (key : String)
    (v : List WNode) : List (String × List WNode) :=
  (key, v) :: m

/-- Embedding of `NodeService.findInTree` (lines 75–84 of the `NodeService` source). -/
def findInTree : List WNode → String → Option WNode
  | [], _ => none
  | (WNode.mk i nm nt kv ch) :: rest, targetId =>
    if i == targetId then some (WNode.mk i nm nt kv ch)
    else
      match findInTree ch targetId with
      | some r => some r
      | none => findInTree rest targetId

/-- The remote-fetch tier of `NodeService.getChildren` (lines 49–58): fetch,
sort ascending by `k`, insert into the per-parent cache. -/
def remoteTier (ns : NodeServiceState) (nodeId : String)
    (remote : Except String (List WNode)) :
    NodeServiceState × Except String (List WNode) :=
  match remote with
  | .ok children =>
    ({ ns with nodeCache := insertCache ns.nodeCache nodeId (sortByK children) },
      .ok (sortByK children))
  | .error e => (ns, .error e)

/-- Embedding of `NodeService.getChildren` (lines 25–59): strict per-parent cache, then the
mirror (where the modelling of `ch` as a plain list makes every found node a
hit), then the sorting remote tier.  `remote` is the outcome of
`client.getNodes(nodeId)`. -/
def getChildren (ns : NodeServiceState) (nodeId : String) (forceRefresh : Bool)
    (remote : Except String (List WNode)) :
    NodeServiceState × Except String (List WNode) :=
  if forceRefresh = false ∧ (lookupCache ns.nodeCache nodeId).isSome then
    (ns, .ok ((lookupCache ns.nodeCache nodeId).getD []))
  else
    match (if forceRefresh = false then ns.inMemoryTree else none) with
    | some fullTree =>
      match findInTree fullTree nodeId with
      | some cachedNode =>
        ({ ns with nodeCache := insertCache ns.nodeCache nodeId cachedNode.ch },
          .ok cachedNode.ch)
      | none =>
        if nodeId == "None" then
          ({ ns with nodeCache := insertCache ns.nodeCache nodeId fullTree },
            .ok fullTree)
        else remoteTier ns nodeId remote
    | none => remoteTier ns nodeId remote

/-- Remote store returning root children with descending `k` (5 then 1). -/
def store0 : String → List WNode := fun pid =>
  if pid == "None" then
    [.mk "a" "A" none (some 5) [], .mk "b" "B" none (some 1) []]
  else []

/-- C4 counterexample: a full sync over `store0` installs a mirror whose root
children list is NOT sorted ascending by `order` — `fetchFullTree` caches the
remote order verbatim, refuting the claim for the full-sync path. -/
theorem fetchFullTree_unsorted_cex :
    (syncBlocking stEmpty (.ok (fetchFullTree store0 2 "None")) 7).1.inMemoryTree =
      some [WNode.mk "a" "A" none (some 5) [], WNode.mk "b" "B" none (some 1) []] ∧
    sortedByK [WNode.mk "a" "A" none (some 5) [], WNode.mk "b" "B" none (some 1) []] =
      false :=
  ⟨rfl, rfl⟩

/-- C4 amended: only the remote-fetch tier of `NodeService.getChildren` sorts
by `order` before caching (its output is always ascending by `k`);
`fetchFullTree` — the full sync and the subtree graft — keeps every fetched
list exactly in the remote store's order, so mirror children lists are sorted
only when the remote already returns them sorted. -/
theorem children_sorted_amended :
    (∀ (ns : NodeServiceState) (nodeId : String) (l : List WNode),
      getChildren ns nodeId true (.ok l) =
        ({ ns with nodeCache := insertCache ns.nodeCache nodeId (sortByK l) },
          .ok (sortByK l)) ∧
      sortedByK (sortByK l) = true) ∧
    (∀ (store : String → List WNode) (fuel : Nat) (parentId : String),
      (fetchFullTree store (fuel + 1) parentId).map WNode.id =
        (store parentId).map WNode.id) := by
  constructor
  · intro ns nodeId l
    constructor
    · simp [getChildren, remoteTier]
    · apply sortedByK_of_pairwise
      haveI : IsTotal WNode (fun a b => kOrZero a ≤ kOrZero b) :=
        ⟨fun a b => le_total (kOrZero a) (kOrZero b)⟩
      haveI : IsTrans WNode (fun a b => kOrZero a ≤ kOrZero b) :=
        ⟨fun _ _ _ hab hbc => le_trans hab hbc⟩
      exact List.sorted_insertionSort _ l
  · intro store fuel parentId
    simp only [fetchFullTree, List.map_map]
    apply List.map_congr_left
    intro a _
    cases a
    rfl
